import Mathlib

/-!
Verification development for the image-resize repository.

The geometry engine (`computeTargetSize`), the render/encode step
(`renderAndEncode`, `canvasToBlobSafe`), the batch orchestrator
(`processFilesInBatches`) and the server route (`POST`) are embedded
shallowly: JavaScript numbers become rationals (all inputs here are
integers, so arithmetic is exact), `Math.round` becomes round-half-up
on rationals, fallible browser encoding becomes `Option` driven by
explicit capability oracles, and side effects on the canvas or the
progress callback become explicit data in the results.
-/

namespace ImageResize

/-- JavaScript `Math.round`: round half up (toward positive infinity). -/
def jsRound (x : ℚ) : ℤ := ⌊x + 1/2⌋

/-- `Mode` from `types.ts`: how aspect ratio is handled when both target
dimensions are provided. -/
inductive Mode
  | inside
  | cover
  | pad
  | fill
deriving DecidableEq, Repr, BEq

/-- `Format` from `types.ts` (client-side output format selection). -/
inductive Format
  | keep
  | jpeg
  | png
  | webp
deriving DecidableEq, Repr, BEq

/-- `DrawParams` from `resize.ts`: the rectangle taken from the source
(`sx`/`sy`/`sw`/`sh`) and where it is drawn in the output
(`dx`/`dy`/`dw`/`dh`). -/
structure DrawParams where
  sx : ℤ
  sy : ℤ
  sw : ℤ
  sh : ℤ
  dx : ℤ
  dy : ℤ
  dw : ℤ
  dh : ℤ
deriving DecidableEq, Repr

/-- `TargetSizeResult` from `resize.ts`. -/
structure TargetSizeResult where
  outW : ℤ
  outH : ℤ
  draw : DrawParams
deriving DecidableEq, Repr

/-- `computeTargetSize` from `resize.ts`: output size and draw params by
resize mode. -/
def computeTargetSize (srcW srcH targetW : ℕ) (targetH : Option ℕ)
    (mode : Mode) : TargetSizeResult :=
  match targetH with
  | none =>
    -- Width-only: preserve aspect ratio based on width
    let h : ℤ := max 1 (jsRound ((targetW * srcH : ℚ) / srcW))
    ⟨targetW, h, ⟨0, 0, srcW, srcH, 0, 0, targetW, h⟩⟩
  | some targetH =>
    match mode with
    | .fill =>
      -- Fill: distort to exact target
      ⟨targetW, targetH, ⟨0, 0, srcW, srcH, 0, 0, targetW, targetH⟩⟩
    | .cover =>
      -- Cover: crop source to match destination ratio, then scale
      let srcRatio : ℚ := (srcW : ℚ) / srcH
      let dstRatio : ℚ := (targetW : ℚ) / targetH
      if srcRatio > dstRatio then
        -- Source too wide -> crop width
        let sw := jsRound ((srcH : ℚ) * dstRatio)
        let sx := jsRound ((((srcW : ℤ) - sw : ℤ) : ℚ) / 2)
        ⟨targetW, targetH, ⟨sx, 0, sw, srcH, 0, 0, targetW, targetH⟩⟩
      else
        -- Source too tall -> crop height
        let sh := jsRound ((srcW : ℚ) / dstRatio)
        let sy := jsRound ((((srcH : ℤ) - sh : ℤ) : ℚ) / 2)
        ⟨targetW, targetH, ⟨0, sy, srcW, sh, 0, 0, targetW, targetH⟩⟩
    | .inside =>
      -- Inside: fit within the box, output adopts the fitted size
      let scale : ℚ := min ((targetW : ℚ) / srcW) ((targetH : ℚ) / srcH)
      let outW := max 1 (jsRound ((srcW : ℚ) * scale))
      let outH := max 1 (jsRound ((srcH : ℚ) * scale))
      ⟨outW, outH, ⟨0, 0, srcW, srcH, 0, 0, outW, outH⟩⟩
    | .pad =>
      -- Pad: output is targetW x targetH, draw fitted image centered
      let scale : ℚ := min ((targetW : ℚ) / srcW) ((targetH : ℚ) / srcH)
      let dw := max 1 (jsRound ((srcW : ℚ) * scale))
      let dh := max 1 (jsRound ((srcH : ℚ) * scale))
      let dx := jsRound ((((targetW : ℤ) - dw : ℤ) : ℚ) / 2)
      let dy := jsRound ((((targetH : ℤ) - dh : ℤ) : ℚ) / 2)
      ⟨targetW, targetH, ⟨0, 0, srcW, srcH, dx, dy, dw, dh⟩⟩

/-- `WHITE_BG` from `resize.ts`: the fixed, non-configurable background. -/
def WHITE_BG : String := "#ffffff"

/-- `pickOutputMime` from `canvas.ts`: desired output MIME from the selected
format; `keep` preserves the input MIME. -/
def pickOutputMime (inputMime : String) (format : Format) : String :=
  match format with
  | .keep => inputMime
  | .jpeg => "image/jpeg"
  | .png => "image/png"
  | .webp => "image/webp"

/-- `mapQuality01` from `utils.ts`: quality scale 1..5 to a canvas encoder
quality float, defaulting to 0.75 outside the table. -/
def mapQuality01 (scale : ℕ) : ℚ :=
  if scale = 1 then 0.4
  else if scale = 2 then 0.6
  else if scale = 3 then 0.75
  else if scale = 4 then 0.85
  else if scale = 5 then 0.92
  else 0.75

/-- `extFromMime` from `utils.ts`. -/
def extFromMime (mime : String) : String :=
  if mime = "image/jpeg" then "jpg"
  else if mime = "image/png" then "png"
  else if mime = "image/webp" then "webp"
  else "png"

/-- `baseNameOf` from `utils.ts`: `filename.replace(/\.[^.]+$/, "")`.
The regex strips a final dot followed by one or more non-dot characters,
i.e. everything from the last dot on, provided that dot is not the final
character. -/
def baseNameOf (filename : String) : String :=
  let rev := filename.toList.reverse
  match rev.findIdx? (· = '.') with
  | some i => if 1 ≤ i then String.mk ((rev.drop (i + 1)).reverse) else filename
  | none => filename

/-- `canvasToBlobSafe` from `resize.ts`, with the browser's abilities made
explicit: `supported` models `isMimeSupportedByCanvas` and `encodeOk` models
whether `canvas.toBlob` yields a blob for a MIME. Returns the MIME of the
encoded blob, or `none` when even the PNG fallback fails (the code throws). -/
def canvasToBlobSafe (supported encodeOk : String → Bool)
    (requestedMime : String) (_quality01 : ℚ) : Option String :=
  let finalMime := if supported requestedMime then requestedMime else "image/png"
  if encodeOk finalMime then some finalMime
  else if encodeOk "image/png" then some "image/png"
  else none

/-- Parameters of `renderAndEncode` from `resize.ts` (the `bitmap` is
replaced by its dimensions; the blob itself is external). -/
structure RenderParams where
  srcW : ℕ
  srcH : ℕ
  inputName : String
  inputMime : String
  targetW : ℕ
  targetH : Option ℕ
  mode : Mode
  outputFormat : Format
  qualityScale : ℕ
  allowEnlarge : Bool
deriving DecidableEq, Repr

/-- Observable outcome of `renderAndEncode`: the returned `{mime, outW, outH}`
plus the canvas side effects (whether the white background was painted before
drawing, and the arguments passed to `drawImage`). The blob bytes are
external. -/
structure RenderResult where
  mime : String
  outW : ℤ
  outH : ℤ
  paintedWhite : Bool
  draw : DrawParams
deriving DecidableEq, Repr

/-- `renderAndEncode` from `resize.ts`: clamp targets when upscaling is
disabled, pick the output MIME, compute the layout, paint white for pad mode
or JPEG output, draw, then encode (with PNG fallback). `none` models the
thrown encoding error. -/
def renderAndEncode (supported encodeOk : String → Bool)
    (p : RenderParams) : Option RenderResult :=
  -- If upscaling is disabled, clamp targets to source dimensions.
  let safeTargetW := if p.allowEnlarge then p.targetW else min p.targetW p.srcW
  let safeTargetH :=
    if p.allowEnlarge then p.targetH else p.targetH.map fun h => min h p.srcH
  let requestedMime := pickOutputMime p.inputMime p.outputFormat
  let r := computeTargetSize p.srcW p.srcH safeTargetW safeTargetH p.mode
  let mustPaintWhite := p.mode == Mode.pad || requestedMime == "image/jpeg"
  let q := mapQuality01 p.qualityScale
  match canvasToBlobSafe supported encodeOk requestedMime q with
  | none => none
  | some mime => some ⟨mime, r.outW, r.outH, mustPaintWhite, r.draw⟩

/-- A source `File` as the client pipeline sees it: its name, MIME type,
and the dimensions `createImageBitmap` decodes it to. -/
structure FileModel where
  name : String
  type : String
  width : ℕ
  height : ℕ
deriving DecidableEq, Repr

/-- The `options` record passed to `processFilesInBatches` in `resize.ts`. -/
structure ClientOptions where
  width : ℕ
  height : Option ℕ
  mode : Mode
  format : Format
  qualityScale : ℕ
  allowEnlarge : Bool
deriving DecidableEq, Repr

/-- The deterministic fields of a result record built by
`processFilesInBatches` (`id`, `previewUrl`, `info` and the blob bytes are
external: random ids, object URLs and encoded sizes). -/
structure ProcessedItem where
  filename : String
  mime : String
  outW : ℤ
  outH : ℤ
deriving DecidableEq, Repr

/-- One `onProgress` callback invocation. -/
structure ProgressEvent where
  total : ℕ
  done : ℕ
  currentFileName : Option String
deriving DecidableEq, Repr

/-- The body of the per-file task inside `processFilesInBatches`: decode,
render and encode, then build the output filename
`{base}_{outW}x{outH}.{ext}` from the computed dimensions and final MIME. -/
def processOne (supported encodeOk : String → Bool) (options : ClientOptions)
    (file : FileModel) : Option ProcessedItem :=
  match renderAndEncode supported encodeOk
      { srcW := file.width, srcH := file.height, inputName := file.name,
        inputMime := file.type, targetW := options.width,
        targetH := options.height, mode := options.mode,
        outputFormat := options.format, qualityScale := options.qualityScale,
        allowEnlarge := options.allowEnlarge } with
  | none => none
  | some r =>
    some ⟨baseNameOf file.name ++ "_" ++ toString r.outW ++ "x"
            ++ toString r.outH ++ "." ++ extFromMime r.mime,
          r.mime, r.outW, r.outH⟩

/-- The batching loop `for (let start = 0; start < files.length;
start += batchSize) { files.slice(start, start + batchSize) ... }` as the
list of slices it visits. Empty for `batchSize = 0` (where the source loop
would never advance). -/
def chunks (batchSize : ℕ) (l : List α) : List (List α) :=
  if batchSize = 0 ∨ l.isEmpty then []
  else l.take batchSize :: chunks batchSize (l.drop batchSize)
termination_by l.length
decreasing_by
  rename_i h
  push_neg at h
  have hl : 0 < l.length := by
    cases l with
    | nil => simp at h
    | cons a t => simp
  simp only [List.length_drop]
  omega

/-- The per-group body of `processFilesInBatches`: for each group, the
before-events fire (each task reports the file name and the `done` count at
group start), then the group's items are awaited together; on success the
completion loop appends results and bumps `done` once per item. A failing
item rejects the whole `Promise.all`, so later groups never run. -/
def goBatches (supported encodeOk : String → Bool) (options : ClientOptions)
    (total : ℕ) :
    ℕ → List (List FileModel) → Option (List ProcessedItem) × List ProgressEvent
  | _, [] => (some [], [])
  | done, b :: rest =>
    let before := b.map fun f => ProgressEvent.mk total done (some f.name)
    match b.mapM (processOne supported encodeOk options) with
    | none => (none, before)
    | some items =>
      let comps :=
        (List.range b.length).map fun k => ProgressEvent.mk total (done + k + 1) none
      let next := goBatches supported encodeOk options total (done + b.length) rest
      (next.1.map fun l => items ++ l, before ++ comps ++ next.2)

/-- `processFilesInBatches` from `resize.ts`: initial progress event, then
the batched walk over the files. Returns the ordered results (`none` when an
item failed and the batch aborted) together with the full progress trace. -/
def processFilesInBatches (supported encodeOk : String → Bool)
    (files : List FileModel) (options : ClientOptions) (batchSize : ℕ) :
    Option (List ProcessedItem) × List ProgressEvent :=
  let total := files.length
  let r := goBatches supported encodeOk options total 0 (chunks batchSize files)
  (r.1, ⟨total, 0, none⟩ :: r.2)

/-! ### Server route (`route.ts`) -/

/-- `MAX_FILES` from `route.ts`. -/
def MAX_FILES : ℕ := 20

/-- `MAX_SIZE_PER_FILE` from `route.ts` (15MB). -/
def MAX_SIZE_PER_FILE : ℕ := 15 * 1024 * 1024

/-- `ALLOWED_MIMES` from `route.ts`. -/
def ALLOWED_MIMES : List String :=
  ["image/jpeg", "image/png", "image/webp", "image/avif"]

/-- The numeric range checks of the zod `schema` in `route.ts` (width
1..8000 required, height 1..8000 optional, qualityScale 1..5). -/
def validOptions (width : ℤ) (height : Option ℤ) (qualityScale : ℤ) : Bool :=
  decide (1 ≤ width ∧ width ≤ 8000)
    && (match height with
        | none => true
        | some h => decide (1 ≤ h ∧ h ≤ 8000))
    && decide (1 ≤ qualityScale ∧ qualityScale ≤ 5)

/-- A file part of the multipart request. -/
structure ApiFile where
  name : String
  type : String
  size : ℕ
deriving DecidableEq, Repr

/-- The 400-level outcomes of `POST` in `route.ts`. -/
inductive ApiError
  | validation
  | noFiles
  | tooManyFiles
  | unsupportedType (name : String)
  | fileTooLarge (name : String)
deriving DecidableEq, Repr

/-- Outcome of the route: the error response (if any) and how many files
had been read and handed to the decoder (`sharp`) before it was produced. -/
structure PostOutcome where
  error : Option ApiError
  decodedCount : ℕ
deriving DecidableEq, Repr

/-- The `for (const file of files)` loop of `POST`: each file's MIME and
size are checked, then its bytes are decoded and processed. -/
def postLoop : List ApiFile → ℕ → PostOutcome
  | [], n => ⟨none, n⟩
  | f :: rest, n =>
    if f.type ∈ ALLOWED_MIMES then
      if MAX_SIZE_PER_FILE < f.size then ⟨some (.fileTooLarge f.name), n⟩
      else postLoop rest (n + 1)
    else ⟨some (.unsupportedType f.name), n⟩

/-- `POST` from `route.ts`, reduced to its validation/decode structure:
option validation, the empty check, the file-count cap, then the per-file
loop. -/
def POST (width : ℤ) (height : Option ℤ) (qualityScale : ℤ)
    (files : List ApiFile) : PostOutcome :=
  if validOptions width height qualityScale then
    if files.length = 0 then ⟨some .noFiles, 0⟩
    else if MAX_FILES < files.length then ⟨some .tooManyFiles, 0⟩
    else postLoop files 0
  else ⟨some .validation, 0⟩

/-- `outputExtension` from `route.ts`. -/
def outputExtension (format : Option String) (inputMime : String) : String :=
  match format with
  | some f => if f = "jpeg" then "jpg" else f
  | none =>
    if inputMime = "image/jpeg" then "jpg"
    else if inputMime = "image/png" then "png"
    else if inputMime = "image/webp" then "webp"
    else if inputMime = "image/avif" then "avif"
    else "png"

/-- The output filename built by `POST` in `route.ts`:
`{baseName}_{width}x{height ?? "auto"}.{ext}` from the REQUESTED target
dimensions. -/
def serverOutName (inputName : String) (width : ℤ) (height : Option ℤ)
    (ext : String) : String :=
  baseNameOf inputName ++ "_" ++ toString width ++ "x"
    ++ (match height with | some h => toString h | none => "auto")
    ++ "." ++ ext

/-! ### Rounding lemmas -/

theorem jsRound_intCast (n : ℤ) : jsRound (n : ℚ) = n := by
  simp only [jsRound]
  rw [Int.floor_int_add]
  norm_num

theorem jsRound_natCast (n : ℕ) : jsRound (n : ℚ) = n := by
  have := jsRound_intCast (n : ℤ)
  push_cast at this ⊢
  exact this

theorem jsRound_nonneg {x : ℚ} (h : 0 ≤ x) : 0 ≤ jsRound x := by
  simp only [jsRound]
  exact Int.le_floor.mpr (by push_cast; linarith)

theorem jsRound_le_int {x : ℚ} {n : ℤ} (h : x ≤ (n : ℚ)) : jsRound x ≤ n := by
  simp only [jsRound]
  have hlt : ⌊x + 1/2⌋ < n + 1 := Int.floor_lt.mpr (by push_cast; linarith)
  omega

theorem jsRound_half_le {m : ℤ} (h : 0 ≤ m) : jsRound ((m : ℚ) / 2) ≤ m := by
  simp only [jsRound]
  have hm : (0 : ℚ) ≤ (m : ℚ) := by exact_mod_cast h
  have hlt : ⌊(m : ℚ) / 2 + 1/2⌋ < m + 1 :=
    Int.floor_lt.mpr (by push_cast; linarith)
  omega

/-! ### Scale bounds -/

theorem scaled_w_le (srcW srcH targetW targetH : ℕ) (hw : 0 < srcW) :
    (srcW : ℚ) * min ((targetW : ℚ) / srcW) ((targetH : ℚ) / srcH)
      ≤ (targetW : ℚ) := by
  have hw0 : (srcW : ℚ) ≠ 0 := Nat.cast_ne_zero.mpr hw.ne'
  have h1 : (srcW : ℚ) * min ((targetW : ℚ) / srcW) ((targetH : ℚ) / srcH)
      ≤ (srcW : ℚ) * ((targetW : ℚ) / srcW) :=
    mul_le_mul_of_nonneg_left (min_le_left _ _) (by positivity)
  have h2 : (srcW : ℚ) * ((targetW : ℚ) / srcW) = (targetW : ℚ) := by
    field_simp
  linarith

theorem scaled_h_le (srcW srcH targetW targetH : ℕ) (hh : 0 < srcH) :
    (srcH : ℚ) * min ((targetW : ℚ) / srcW) ((targetH : ℚ) / srcH)
      ≤ (targetH : ℚ) := by
  have hh0 : (srcH : ℚ) ≠ 0 := Nat.cast_ne_zero.mpr hh.ne'
  have h1 : (srcH : ℚ) * min ((targetW : ℚ) / srcW) ((targetH : ℚ) / srcH)
      ≤ (srcH : ℚ) * ((targetH : ℚ) / srcH) :=
    mul_le_mul_of_nonneg_left (min_le_right _ _) (by positivity)
  have h2 : (srcH : ℚ) * ((targetH : ℚ) / srcH) = (targetH : ℚ) := by
    field_simp
  linarith

/-! ### Characterizations of the geometry engine, one per branch -/

theorem computeTargetSize_none (srcW srcH targetW : ℕ) (mode : Mode) :
    computeTargetSize srcW srcH targetW none mode =
      ⟨targetW, max 1 (jsRound ((targetW * srcH : ℚ) / srcW)),
       ⟨0, 0, srcW, srcH, 0, 0, targetW,
        max 1 (jsRound ((targetW * srcH : ℚ) / srcW))⟩⟩ := rfl

theorem computeTargetSize_fill (srcW srcH targetW targetH : ℕ) :
    computeTargetSize srcW srcH targetW (some targetH) .fill =
      ⟨targetW, targetH, ⟨0, 0, srcW, srcH, 0, 0, targetW, targetH⟩⟩ := rfl

theorem computeTargetSize_inside (srcW srcH targetW targetH : ℕ) :
    computeTargetSize srcW srcH targetW (some targetH) .inside =
      let scale : ℚ := min ((targetW : ℚ) / srcW) ((targetH : ℚ) / srcH)
      let outW := max 1 (jsRound ((srcW : ℚ) * scale))
      let outH := max 1 (jsRound ((srcH : ℚ) * scale))
      ⟨outW, outH, ⟨0, 0, srcW, srcH, 0, 0, outW, outH⟩⟩ := rfl

theorem computeTargetSize_pad (srcW srcH targetW targetH : ℕ) :
    computeTargetSize srcW srcH targetW (some targetH) .pad =
      let scale : ℚ := min ((targetW : ℚ) / srcW) ((targetH : ℚ) / srcH)
      let dw := max 1 (jsRound ((srcW : ℚ) * scale))
      let dh := max 1 (jsRound ((srcH : ℚ) * scale))
      ⟨targetW, targetH,
       ⟨0, 0, srcW, srcH,
        jsRound ((((targetW : ℤ) - dw : ℤ) : ℚ) / 2),
        jsRound ((((targetH : ℤ) - dh : ℤ) : ℚ) / 2), dw, dh⟩⟩ := rfl

theorem computeTargetSize_cover_wide (srcW srcH targetW targetH : ℕ)
    (h : (srcW : ℚ) / srcH > (targetW : ℚ) / targetH) :
    computeTargetSize srcW srcH targetW (some targetH) .cover =
      let sw := jsRound ((srcH : ℚ) * ((targetW : ℚ) / targetH))
      ⟨targetW, targetH,
       ⟨jsRound ((((srcW : ℤ) - sw : ℤ) : ℚ) / 2), 0, sw, srcH,
        0, 0, targetW, targetH⟩⟩ := by
  simp only [computeTargetSize]
  rw [if_pos h]

theorem computeTargetSize_cover_tall (srcW srcH targetW targetH : ℕ)
    (h : ¬ ((srcW : ℚ) / srcH > (targetW : ℚ) / targetH)) :
    computeTargetSize srcW srcH targetW (some targetH) .cover =
      let sh := jsRound ((srcW : ℚ) / ((targetW : ℚ) / targetH))
      ⟨targetW, targetH,
       ⟨0, jsRound ((((srcH : ℤ) - sh : ℤ) : ℚ) / 2), srcW, sh,
        0, 0, targetW, targetH⟩⟩ := by
  simp only [computeTargetSize]
  rw [if_neg h]

/-! ### The layout invariant (claim C1) -/

/-- The invariant as the specification states it: output dimensions at
least 1, source rectangle within source bounds, destination rectangle
within output bounds, and all four rectangle widths/heights at least 1. -/
def LayoutInvariant (srcW srcH : ℕ) (r : TargetSizeResult) : Prop :=
  1 ≤ r.outW ∧ 1 ≤ r.outH ∧
  0 ≤ r.draw.sx ∧ 0 ≤ r.draw.sy ∧
  r.draw.sx + r.draw.sw ≤ (srcW : ℤ) ∧ r.draw.sy + r.draw.sh ≤ (srcH : ℤ) ∧
  0 ≤ r.draw.dx ∧ 0 ≤ r.draw.dy ∧
  r.draw.dx + r.draw.dw ≤ r.outW ∧ r.draw.dy + r.draw.dh ≤ r.outH ∧
  1 ≤ r.draw.sw ∧ 1 ≤ r.draw.sh ∧ 1 ≤ r.draw.dw ∧ 1 ≤ r.draw.dh

/-- Same invariant with the source-rectangle dimensions only required to be
nonnegative (cover mode does not floor its crop at 1). -/
def LayoutInvariantCore (srcW srcH : ℕ) (r : TargetSizeResult) : Prop :=
  1 ≤ r.outW ∧ 1 ≤ r.outH ∧
  0 ≤ r.draw.sx ∧ 0 ≤ r.draw.sy ∧
  r.draw.sx + r.draw.sw ≤ (srcW : ℤ) ∧ r.draw.sy + r.draw.sh ≤ (srcH : ℤ) ∧
  0 ≤ r.draw.dx ∧ 0 ≤ r.draw.dy ∧
  r.draw.dx + r.draw.dw ≤ r.outW ∧ r.draw.dy + r.draw.dh ≤ r.outH ∧
  0 ≤ r.draw.sw ∧ 0 ≤ r.draw.sh ∧ 1 ≤ r.draw.dw ∧ 1 ≤ r.draw.dh

/-! ### Claim C1 -/

/-- C1 counterexample: the invariant fails as stated. In cover mode the
cropped source dimension is not floored at 1: for source 1x1 and target
1x3 the crop width rounds to 0 (and symmetrically for target 3x1 the crop
height rounds to 0). -/
theorem claim_C1_counterexample :
    ¬ LayoutInvariant 1 1 (computeTargetSize 1 1 1 (some 3) .cover)
    ∧ (computeTargetSize 1 1 1 (some 3) .cover).draw.sw = 0
    ∧ ¬ LayoutInvariant 1 1 (computeTargetSize 1 1 3 (some 1) .cover)
    ∧ (computeTargetSize 1 1 3 (some 1) .cover).draw.sh = 0 := by
  have e1 : computeTargetSize 1 1 1 (some 3) .cover =
      ⟨1, 3, ⟨1, 0, 0, 1, 0, 0, 1, 3⟩⟩ := by
    rw [computeTargetSize_cover_wide _ _ _ _ (by norm_num)]
    norm_num [jsRound]
  have e2 : computeTargetSize 1 1 3 (some 1) .cover =
      ⟨3, 1, ⟨0, 1, 1, 0, 0, 0, 3, 1⟩⟩ := by
    rw [computeTargetSize_cover_tall _ _ _ _ (by norm_num)]
    norm_num [jsRound]
  rw [e1, e2]
  refine ⟨fun hinv => ?_, rfl, fun hinv => ?_, rfl⟩
  · simp only [LayoutInvariant] at hinv
    omega
  · simp only [LayoutInvariant] at hinv
    omega

/-- C1 (amended): for positive sources and targets the layout satisfies
all the stated bounds — output dimensions at least 1, source rectangle
within source bounds, destination rectangle within output bounds,
destination rectangle dimensions at least 1 — and the source rectangle
dimensions are nonnegative; they are moreover at least 1 in every case
except cover mode with both targets present, where the cropped dimension
may round down to 0. -/
theorem claim_C1_theorem (srcW srcH targetW : ℕ) (targetH : Option ℕ)
    (mode : Mode) (hw : 0 < srcW) (hh : 0 < srcH) (htw : 0 < targetW)
    (hth : ∀ h ∈ targetH, 0 < h) :
    LayoutInvariantCore srcW srcH
        (computeTargetSize srcW srcH targetW targetH mode)
    ∧ ((mode ≠ .cover ∨ targetH = none) →
        LayoutInvariant srcW srcH
          (computeTargetSize srcW srcH targetW targetH mode)) := by
  have hw1 : (1 : ℤ) ≤ (srcW : ℤ) := by exact_mod_cast hw
  have hh1 : (1 : ℤ) ≤ (srcH : ℤ) := by exact_mod_cast hh
  have htw1 : (1 : ℤ) ≤ (targetW : ℤ) := by exact_mod_cast htw
  cases targetH with
  | none =>
    rw [computeTargetSize_none]
    simp only [LayoutInvariantCore, LayoutInvariant]
    refine ⟨?_, fun _ => ?_⟩ <;> omega
  | some th =>
    have hth1 : (1 : ℤ) ≤ (th : ℤ) := by exact_mod_cast hth th rfl
    have hth0 : 0 < th := hth th rfl
    cases mode with
    | fill =>
      rw [computeTargetSize_fill]
      simp only [LayoutInvariantCore, LayoutInvariant]
      refine ⟨?_, fun _ => ?_⟩ <;> omega
    | inside =>
      rw [computeTargetSize_inside]
      dsimp only
      have ha : jsRound ((srcW : ℚ) * min ((targetW : ℚ) / srcW) ((th : ℚ) / srcH))
          ≤ (targetW : ℤ) :=
        jsRound_le_int (by push_cast; exact scaled_w_le srcW srcH targetW th hw)
      have hb : jsRound ((srcH : ℚ) * min ((targetW : ℚ) / srcW) ((th : ℚ) / srcH))
          ≤ (th : ℤ) :=
        jsRound_le_int (by push_cast; exact scaled_h_le srcW srcH targetW th hh)
      simp only [LayoutInvariantCore, LayoutInvariant]
      refine ⟨?_, fun _ => ?_⟩ <;> omega
    | pad =>
      rw [computeTargetSize_pad]
      dsimp only
      have ha : jsRound ((srcW : ℚ) * min ((targetW : ℚ) / srcW) ((th : ℚ) / srcH))
          ≤ (targetW : ℤ) :=
        jsRound_le_int (by push_cast; exact scaled_w_le srcW srcH targetW th hw)
      have hb : jsRound ((srcH : ℚ) * min ((targetW : ℚ) / srcW) ((th : ℚ) / srcH))
          ≤ (th : ℤ) :=
        jsRound_le_int (by push_cast; exact scaled_h_le srcW srcH targetW th hh)
      set a := jsRound ((srcW : ℚ) * min ((targetW : ℚ) / srcW) ((th : ℚ) / srcH))
        with hA
      set b := jsRound ((srcH : ℚ) * min ((targetW : ℚ) / srcW) ((th : ℚ) / srcH))
        with hB
      have hmx : 0 ≤ (targetW : ℤ) - max 1 a := by omega
      have hmy : 0 ≤ (th : ℤ) - max 1 b := by omega
      have hdx0 : 0 ≤ jsRound ((((targetW : ℤ) - max 1 a : ℤ) : ℚ) / 2) :=
        jsRound_nonneg (div_nonneg (by exact_mod_cast hmx) (by norm_num))
      have hdy0 : 0 ≤ jsRound ((((th : ℤ) - max 1 b : ℤ) : ℚ) / 2) :=
        jsRound_nonneg (div_nonneg (by exact_mod_cast hmy) (by norm_num))
      have hdxle : jsRound ((((targetW : ℤ) - max 1 a : ℤ) : ℚ) / 2)
          ≤ (targetW : ℤ) - max 1 a := jsRound_half_le hmx
      have hdyle : jsRound ((((th : ℤ) - max 1 b : ℤ) : ℚ) / 2)
          ≤ (th : ℤ) - max 1 b := jsRound_half_le hmy
      simp only [LayoutInvariantCore, LayoutInvariant]
      refine ⟨?_, fun _ => ?_⟩ <;> omega
    | cover =>
      by_cases hr : (srcW : ℚ) / srcH > (targetW : ℚ) / th
      · rw [computeTargetSize_cover_wide _ _ _ _ hr]
        dsimp only
        have hsp : (0 : ℚ) < (srcH : ℚ) := by exact_mod_cast hh
        have hsw0 : 0 ≤ jsRound ((srcH : ℚ) * ((targetW : ℚ) / th)) :=
          jsRound_nonneg (by positivity)
        have hswle : jsRound ((srcH : ℚ) * ((targetW : ℚ) / th)) ≤ (srcW : ℤ) := by
          refine jsRound_le_int ?_
          have h1 : (srcH : ℚ) * ((targetW : ℚ) / th)
              < (srcH : ℚ) * ((srcW : ℚ) / srcH) :=
            mul_lt_mul_of_pos_left hr hsp
          have h2 : (srcH : ℚ) * ((srcW : ℚ) / srcH) = (srcW : ℚ) := by
            field_simp
          push_cast
          linarith
        set sw := jsRound ((srcH : ℚ) * ((targetW : ℚ) / th)) with hSW
        have hm : 0 ≤ (srcW : ℤ) - sw := by omega
        have hsx0 : 0 ≤ jsRound ((((srcW : ℤ) - sw : ℤ) : ℚ) / 2) :=
          jsRound_nonneg (div_nonneg (by exact_mod_cast hm) (by norm_num))
        have hsxle : jsRound ((((srcW : ℤ) - sw : ℤ) : ℚ) / 2)
            ≤ (srcW : ℤ) - sw := jsRound_half_le hm
        simp only [LayoutInvariantCore, LayoutInvariant]
        refine ⟨?_, fun hne => ?_⟩
        · omega
        · rcases hne with hne | hne
          · exact absurd rfl hne
          · exact absurd hne (by simp)
      · rw [computeTargetSize_cover_tall _ _ _ _ hr]
        dsimp only
        have hdp : (0 : ℚ) < (targetW : ℚ) / th := by positivity
        have hsh0 : 0 ≤ jsRound ((srcW : ℚ) / ((targetW : ℚ) / th)) :=
          jsRound_nonneg (le_of_lt (by positivity))
        have hshle : jsRound ((srcW : ℚ) / ((targetW : ℚ) / th)) ≤ (srcH : ℤ) := by
          refine jsRound_le_int ?_
          have hsp : (0 : ℚ) < (srcH : ℚ) := by exact_mod_cast hh
          have hsr : (srcW : ℚ) / srcH ≤ (targetW : ℚ) / th := not_lt.mp hr
          have h1 : (srcW : ℚ) ≤ ((targetW : ℚ) / th) * (srcH : ℚ) :=
            (div_le_iff₀ hsp).mp hsr
          push_cast
          rw [div_le_iff₀ hdp]
          linarith
        set sh := jsRound ((srcW : ℚ) / ((targetW : ℚ) / th)) with hSH
        have hm : 0 ≤ (srcH : ℤ) - sh := by omega
        have hsy0 : 0 ≤ jsRound ((((srcH : ℤ) - sh : ℤ) : ℚ) / 2) :=
          jsRound_nonneg (div_nonneg (by exact_mod_cast hm) (by norm_num))
        have hsyle : jsRound ((((srcH : ℤ) - sh : ℤ) : ℚ) / 2)
            ≤ (srcH : ℤ) - sh := jsRound_half_le hm
        simp only [LayoutInvariantCore, LayoutInvariant]
        refine ⟨?_, fun hne => ?_⟩
        · omega
        · rcases hne with hne | hne
          · exact absurd rfl hne
          · exact absurd hne (by simp)

/-! ### Claim C2 -/

/-- C2: cover mode with both targets present returns output exactly
targetW x targetH, drawing onto the full destination, and crops
symmetrically on exactly one axis: when srcW/srcH > targetW/targetH the
crop width is round(srcH * dstRatio) at x = round((srcW - sw)/2) with full
height retained, otherwise the crop height is round(srcW / dstRatio) at
y = round((srcH - sh)/2) with full width retained. Concretely, src
1600x900 with target 800x800 yields output 800x800 with sw = 900 and
sx = 350. -/
theorem claim_C2_theorem (srcW srcH targetW targetH : ℕ)
    (_hw : 0 < srcW) (_hh : 0 < srcH) (_htw : 0 < targetW)
    (_hth : 0 < targetH) :
    (let r := computeTargetSize srcW srcH targetW (some targetH) .cover
     r.outW = targetW ∧ r.outH = targetH ∧ r.draw.dx = 0 ∧ r.draw.dy = 0 ∧
     r.draw.dw = targetW ∧ r.draw.dh = targetH ∧
     (if (srcW : ℚ) / srcH > (targetW : ℚ) / targetH then
        r.draw.sw = jsRound ((srcH : ℚ) * ((targetW : ℚ) / targetH)) ∧
        r.draw.sx = jsRound ((((srcW : ℤ) - r.draw.sw : ℤ) : ℚ) / 2) ∧
        r.draw.sh = srcH ∧ r.draw.sy = 0
      else
        r.draw.sh = jsRound ((srcW : ℚ) / ((targetW : ℚ) / targetH)) ∧
        r.draw.sy = jsRound ((((srcH : ℤ) - r.draw.sh : ℤ) : ℚ) / 2) ∧
        r.draw.sw = srcW ∧ r.draw.sx = 0))
    ∧ computeTargetSize 1600 900 800 (some 800) .cover =
        ⟨800, 800, ⟨350, 0, 900, 900, 0, 0, 800, 800⟩⟩ := by
  constructor
  · by_cases hr : (srcW : ℚ) / srcH > (targetW : ℚ) / targetH
    · rw [computeTargetSize_cover_wide _ _ _ _ hr]
      dsimp only
      rw [if_pos hr]
      exact ⟨rfl, rfl, rfl, rfl, rfl, rfl, rfl, rfl, rfl, rfl⟩
    · rw [computeTargetSize_cover_tall _ _ _ _ hr]
      dsimp only
      rw [if_neg hr]
      exact ⟨rfl, rfl, rfl, rfl, rfl, rfl, rfl, rfl, rfl, rfl⟩
  · rw [computeTargetSize_cover_wide _ _ _ _ (by norm_num)]
    norm_num [jsRound]

/-- C2 witness. -/
theorem claim_C2_witness :
    ((0 : ℕ) < 1600 ∧ (0 : ℕ) < 900 ∧ (0 : ℕ) < 800)
    ∧ (computeTargetSize 1600 900 800 (some 800) .cover).outW = 800 :=
  ⟨by norm_num,
   (claim_C2_theorem 1600 900 800 800 (by norm_num) (by norm_num) (by norm_num)
     (by norm_num)).1.1⟩

/-! ### Claim C3 -/

/-- C3: inside mode returns outW = max(1, round(srcW * scale)) and
outH = max(1, round(srcH * scale)) with scale = min(targetW/srcW,
targetH/srcH); consequently outW ≤ targetW, outH ≤ targetH, at least one
axis fits exactly, and when the source ratio equals the target ratio both
do. -/
theorem claim_C3_theorem (srcW srcH targetW targetH : ℕ)
    (hw : 0 < srcW) (hh : 0 < srcH) (htw : 0 < targetW) (hth : 0 < targetH) :
    (computeTargetSize srcW srcH targetW (some targetH) .inside).outW
      = max 1 (jsRound ((srcW : ℚ)
          * min ((targetW : ℚ) / srcW) ((targetH : ℚ) / srcH)))
    ∧ (computeTargetSize srcW srcH targetW (some targetH) .inside).outH
      = max 1 (jsRound ((srcH : ℚ)
          * min ((targetW : ℚ) / srcW) ((targetH : ℚ) / srcH)))
    ∧ (computeTargetSize srcW srcH targetW (some targetH) .inside).outW
        ≤ (targetW : ℤ)
    ∧ (computeTargetSize srcW srcH targetW (some targetH) .inside).outH
        ≤ (targetH : ℤ)
    ∧ ((computeTargetSize srcW srcH targetW (some targetH) .inside).outW
          = targetW
       ∨ (computeTargetSize srcW srcH targetW (some targetH) .inside).outH
          = targetH)
    ∧ ((srcW : ℚ) / srcH = (targetW : ℚ) / targetH →
        (computeTargetSize srcW srcH targetW (some targetH) .inside).outW
          = targetW
        ∧ (computeTargetSize srcW srcH targetW (some targetH) .inside).outH
          = targetH) := by
  have hw1 : (1 : ℤ) ≤ (srcW : ℤ) := by exact_mod_cast hw
  have htw1 : (1 : ℤ) ≤ (targetW : ℤ) := by exact_mod_cast htw
  have hth1 : (1 : ℤ) ≤ (targetH : ℤ) := by exact_mod_cast hth
  have hw0 : (srcW : ℚ) ≠ 0 := Nat.cast_ne_zero.mpr hw.ne'
  have hh0 : (srcH : ℚ) ≠ 0 := Nat.cast_ne_zero.mpr hh.ne'
  have ha : jsRound ((srcW : ℚ) * min ((targetW : ℚ) / srcW) ((targetH : ℚ) / srcH))
      ≤ (targetW : ℤ) :=
    jsRound_le_int (by push_cast; exact scaled_w_le srcW srcH targetW targetH hw)
  have hb : jsRound ((srcH : ℚ) * min ((targetW : ℚ) / srcW) ((targetH : ℚ) / srcH))
      ≤ (targetH : ℤ) :=
    jsRound_le_int (by push_cast; exact scaled_h_le srcW srcH targetW targetH hh)
  have hxw : (srcW : ℚ) * ((targetW : ℚ) / srcW) = (targetW : ℚ) := by
    field_simp
  have hxh : (srcH : ℚ) * ((targetH : ℚ) / srcH) = (targetH : ℚ) := by
    field_simp
  have hleft : min ((targetW : ℚ) / srcW) ((targetH : ℚ) / srcH)
        = (targetW : ℚ) / srcW →
      max 1 (jsRound ((srcW : ℚ) * min ((targetW : ℚ) / srcW)
        ((targetH : ℚ) / srcH))) = (targetW : ℤ) := by
    intro hm
    rw [hm, hxw]
    have : jsRound ((targetW : ℚ)) = (targetW : ℤ) := jsRound_natCast targetW
    rw [this]
    omega
  have hright : min ((targetW : ℚ) / srcW) ((targetH : ℚ) / srcH)
        = (targetH : ℚ) / srcH →
      max 1 (jsRound ((srcH : ℚ) * min ((targetW : ℚ) / srcW)
        ((targetH : ℚ) / srcH))) = (targetH : ℤ) := by
    intro hm
    rw [hm, hxh]
    have : jsRound ((targetH : ℚ)) = (targetH : ℤ) := jsRound_natCast targetH
    rw [this]
    omega
  rw [computeTargetSize_inside]
  dsimp only
  refine ⟨rfl, rfl, by omega, by omega, ?_, ?_⟩
  · rcases le_total ((targetW : ℚ) / srcW) ((targetH : ℚ) / srcH) with hc | hc
    · exact Or.inl (hleft (min_eq_left hc))
    · exact Or.inr (hright (min_eq_right hc))
  · intro he
    have hcross : (srcW : ℚ) * (targetH : ℚ) = (targetW : ℚ) * (srcH : ℚ) :=
      (div_eq_div_iff hh0 (Nat.cast_ne_zero.mpr hth.ne')).mp he
    have heq : (targetW : ℚ) / srcW = (targetH : ℚ) / srcH := by
      rw [div_eq_div_iff hw0 hh0]
      linarith [hcross]
    have hm : min ((targetW : ℚ) / srcW) ((targetH : ℚ) / srcH)
        = (targetW : ℚ) / srcW := min_eq_left (le_of_eq heq)
    have hm' : min ((targetW : ℚ) / srcW) ((targetH : ℚ) / srcH)
        = (targetH : ℚ) / srcH := min_eq_right (ge_of_eq heq)
    exact ⟨hleft hm, hright hm'⟩

/-- C3 witness. -/
theorem claim_C3_witness :
    ((0 : ℕ) < 1600 ∧ (0 : ℕ) < 900 ∧ (0 : ℕ) < 800)
    ∧ (computeTargetSize 1600 900 800 (some 800) .inside).outW
        ≤ ((800 : ℕ) : ℤ) :=
  ⟨by norm_num,
   (claim_C3_theorem 1600 900 800 800 (by norm_num) (by norm_num) (by norm_num)
     (by norm_num)).2.2.1⟩

/-! ### Claim C4 -/

/-- C4: pad mode returns output exactly targetW x targetH, computes the
drawn size with the same scale formula as inside mode, centers the drawn
image at dx = round((targetW-dw)/2), dy = round((targetH-dh)/2), and the
render step paints the fixed white background before drawing whenever the
mode is pad. Concretely, src 1600x900 with target 800x800 yields an 800x800
canvas with an inner 800x450 image at dy = 175. -/
theorem claim_C4_theorem (srcW srcH targetW targetH : ℕ) :
    (let scale : ℚ := min ((targetW : ℚ) / srcW) ((targetH : ℚ) / srcH)
     let r := computeTargetSize srcW srcH targetW (some targetH) .pad
     let rin := computeTargetSize srcW srcH targetW (some targetH) .inside
     r.outW = targetW ∧ r.outH = targetH
     ∧ r.draw.dw = max 1 (jsRound ((srcW : ℚ) * scale))
     ∧ r.draw.dh = max 1 (jsRound ((srcH : ℚ) * scale))
     ∧ r.draw.dw = rin.outW ∧ r.draw.dh = rin.outH
     ∧ r.draw.dx = jsRound ((((targetW : ℤ) - r.draw.dw : ℤ) : ℚ) / 2)
     ∧ r.draw.dy = jsRound ((((targetH : ℤ) - r.draw.dh : ℤ) : ℚ) / 2)
     ∧ r.draw.sx = 0 ∧ r.draw.sy = 0
     ∧ r.draw.sw = srcW ∧ r.draw.sh = srcH)
    ∧ (∀ (S E : String → Bool) (p : RenderParams) (r : RenderResult),
        p.mode = .pad → renderAndEncode S E p = some r →
          r.paintedWhite = true)
    ∧ WHITE_BG = "#ffffff"
    ∧ computeTargetSize 1600 900 800 (some 800) .pad =
        ⟨800, 800, ⟨0, 0, 1600, 900, 0, 175, 800, 450⟩⟩ := by
  refine ⟨?_, ?_, rfl, ?_⟩
  · rw [computeTargetSize_pad, computeTargetSize_inside]
    exact ⟨rfl, rfl, rfl, rfl, rfl, rfl, rfl, rfl, rfl, rfl, rfl, rfl⟩
  · intro S E p r hmode hren
    simp only [renderAndEncode] at hren
    rcases hcb : canvasToBlobSafe S E (pickOutputMime p.inputMime p.outputFormat)
        (mapQuality01 p.qualityScale) with _ | mime
    · rw [hcb] at hren
      exact absurd hren (by simp)
    · rw [hcb] at hren
      have := (Option.some.injEq _ _).mp hren
      rw [← this]
      simp only [hmode]
      exact Bool.or_eq_true _ _ |>.mpr (Or.inl (by decide))
  · rw [computeTargetSize_pad]
    norm_num [jsRound, min_def]

/-- C4 witness. -/
theorem claim_C4_witness :
    (computeTargetSize 1600 900 800 (some 800) .pad).outW = 800 :=
  (claim_C4_theorem 1600 900 800 800).1.1

/-! ### Claim C5 -/

/-- C5: when targetH is absent, every mode returns outW = targetW and
outH = max(1, round(targetW * srcH / srcW)), and the draw maps the full
source onto the full destination (no crop). Concretely, src 1600x900 at
target width 800 gives output 800x450. -/
theorem claim_C5_theorem (srcW srcH targetW : ℕ) (mode : Mode) :
    computeTargetSize srcW srcH targetW none mode =
      ⟨targetW, max 1 (jsRound ((targetW * srcH : ℚ) / srcW)),
       ⟨0, 0, srcW, srcH, 0, 0, targetW,
        max 1 (jsRound ((targetW * srcH : ℚ) / srcW))⟩⟩
    ∧ (computeTargetSize 1600 900 800 none mode).outW = 800
    ∧ (computeTargetSize 1600 900 800 none mode).outH = 450 := by
  refine ⟨computeTargetSize_none srcW srcH targetW mode, ?_, ?_⟩ <;>
  · rw [computeTargetSize_none]
    norm_num [jsRound]

/-! ### Claim C10 -/

/-- C10: in width-only mode the output height is not bounded by the 8000
validation cap: src 100x8000 at target width 8000 (height absent,
allowEnlarge true) yields outH = 640000 > 8000 in every mode, end to end
through the render step. -/
theorem claim_C10_theorem (mode : Mode) :
    (computeTargetSize 100 8000 8000 none mode).outH = 640000
    ∧ 8000 < (computeTargetSize 100 8000 8000 none mode).outH
    ∧ (∃ r, renderAndEncode (fun _ => true) (fun _ => true)
          ⟨100, 8000, "pano.png", "image/png", 8000, none, mode, .keep, 3, true⟩
        = some r ∧ r.outH = 640000) := by
  have hc : computeTargetSize 100 8000 8000 none mode =
      ⟨8000, 640000, ⟨0, 0, 100, 8000, 0, 0, 8000, 640000⟩⟩ := by
    rw [computeTargetSize_none]
    norm_num [jsRound]
  refine ⟨by rw [hc], by rw [hc]; norm_num, ?_⟩
  refine ⟨⟨"image/png", 8000, 640000,
    (mode == Mode.pad || ("image/png" == "image/jpeg")),
    ⟨0, 0, 100, 8000, 0, 0, 8000, 640000⟩⟩, ?_, rfl⟩
  simp only [renderAndEncode, canvasToBlobSafe, pickOutputMime, if_true, hc]

/-- C1 witness: the amended invariant at src 1600x900, target 800x800,
cover mode. -/
theorem claim_C1_witness :
    (0 < 1600 ∧ 0 < 900 ∧ 0 < 800)
    ∧ (LayoutInvariantCore 1600 900
         (computeTargetSize 1600 900 800 (some 800) .cover)
       ∧ ((Mode.cover ≠ .cover ∨ (some 800 : Option ℕ) = none) →
           LayoutInvariant 1600 900
             (computeTargetSize 1600 900 800 (some 800) .cover))) :=
  ⟨by norm_num,
   claim_C1_theorem 1600 900 800 (some 800) .cover (by norm_num) (by norm_num)
     (by norm_num) (by intro h hmem; simp only [Option.mem_def, Option.some.injEq] at hmem; omega)⟩

/-! ### Claim C6 -/

/-- With a working PNG encoder, `canvasToBlobSafe` always produces a MIME
(the final PNG fallback succeeds). -/
theorem canvasToBlobSafe_isSome (S E : String → Bool) (m : String) (q : ℚ)
    (hpng : E "image/png" = true) :
    ∃ mime, canvasToBlobSafe S E m q = some mime := by
  unfold canvasToBlobSafe
  by_cases h1 : E (if S m then m else "image/png") = true
  · rw [if_pos h1]
    exact ⟨_, rfl⟩
  · rw [if_neg h1, if_pos hpng]
    exact ⟨_, rfl⟩

/-- C6: when `allowEnlarge` is false, `renderAndEncode` clamps the target
dimensions per axis to the source dimensions once, upstream, and then runs
`computeTargetSize` on the clamped targets (whatever the mode); for source
500x500 and target 1000x2000 the effective target is 500x500. -/
theorem claim_C6_theorem (S E : String → Bool) (p : RenderParams)
    (hAE : p.allowEnlarge = false) (hpng : E "image/png" = true) :
    (∃ r, renderAndEncode S E p = some r
      ∧ r.outW = (computeTargetSize p.srcW p.srcH (min p.targetW p.srcW)
          (p.targetH.map fun h => min h p.srcH) p.mode).outW
      ∧ r.outH = (computeTargetSize p.srcW p.srcH (min p.targetW p.srcW)
          (p.targetH.map fun h => min h p.srcH) p.mode).outH
      ∧ r.draw = (computeTargetSize p.srcW p.srcH (min p.targetW p.srcW)
          (p.targetH.map fun h => min h p.srcH) p.mode).draw)
    ∧ (p.srcW = 500 → p.srcH = 500 → p.targetW = 1000 → p.targetH = some 2000 →
       ∃ r, renderAndEncode S E p = some r
        ∧ r.outW = (computeTargetSize 500 500 500 (some 500) p.mode).outW
        ∧ r.outH = (computeTargetSize 500 500 500 (some 500) p.mode).outH
        ∧ r.draw = (computeTargetSize 500 500 500 (some 500) p.mode).draw) := by
  obtain ⟨mime, hmime⟩ :=
    canvasToBlobSafe_isSome S E (pickOutputMime p.inputMime p.outputFormat)
      (mapQuality01 p.qualityScale) hpng
  have hgen : ∃ r, renderAndEncode S E p = some r
      ∧ r.outW = (computeTargetSize p.srcW p.srcH (min p.targetW p.srcW)
          (p.targetH.map fun h => min h p.srcH) p.mode).outW
      ∧ r.outH = (computeTargetSize p.srcW p.srcH (min p.targetW p.srcW)
          (p.targetH.map fun h => min h p.srcH) p.mode).outH
      ∧ r.draw = (computeTargetSize p.srcW p.srcH (min p.targetW p.srcW)
          (p.targetH.map fun h => min h p.srcH) p.mode).draw := by
    refine ⟨⟨mime,
      (computeTargetSize p.srcW p.srcH (min p.targetW p.srcW)
        (p.targetH.map fun h => min h p.srcH) p.mode).outW,
      (computeTargetSize p.srcW p.srcH (min p.targetW p.srcW)
        (p.targetH.map fun h => min h p.srcH) p.mode).outH,
      (p.mode == Mode.pad
        || pickOutputMime p.inputMime p.outputFormat == "image/jpeg"),
      (computeTargetSize p.srcW p.srcH (min p.targetW p.srcW)
        (p.targetH.map fun h => min h p.srcH) p.mode).draw⟩, ?_, rfl, rfl, rfl⟩
    simp only [renderAndEncode, hAE, Bool.false_eq_true, if_false, hmime]
  refine ⟨hgen, fun hsw hsh htw hth => ?_⟩
  obtain ⟨r, hr, h1, h2, h3⟩ := hgen
  refine ⟨r, hr, ?_, ?_, ?_⟩ <;>
  · rw [hsw, hsh, htw, hth] at *
    simp only [Option.map_some'] at h1 h2 h3
    norm_num at h1 h2 h3
    assumption

/-- C6 witness. -/
theorem claim_C6_witness :
    ((⟨500, 500, "a.png", "image/png", 1000, some 2000, .inside, .keep, 3,
        false⟩ : RenderParams).allowEnlarge = false
     ∧ (fun _ : String => true) "image/png" = true)
    ∧ ∃ r, renderAndEncode (fun _ => true) (fun _ => true)
        ⟨500, 500, "a.png", "image/png", 1000, some 2000, .inside, .keep, 3,
          false⟩ = some r
      ∧ r.outW = (computeTargetSize 500 500 500 (some 500) Mode.inside).outW
      ∧ r.outH = (computeTargetSize 500 500 500 (some 500) Mode.inside).outH
      ∧ r.draw = (computeTargetSize 500 500 500 (some 500) Mode.inside).draw :=
  ⟨⟨rfl, rfl⟩,
   (claim_C6_theorem (fun _ => true) (fun _ => true)
       ⟨500, 500, "a.png", "image/png", 1000, some 2000, .inside, .keep, 3,
         false⟩ rfl rfl).2 rfl rfl rfl rfl⟩

/-! ### Claim C7 -/

/-- Files that pass the per-file checks are decoded and processed; the
loop then continues on the remainder with the decode count advanced. -/
theorem postLoop_valid_prefix (good : List ApiFile)
    (hg : ∀ f ∈ good, f.type ∈ ALLOWED_MIMES ∧ f.size ≤ MAX_SIZE_PER_FILE) :
    ∀ (rest : List ApiFile) (n : ℕ),
      postLoop (good ++ rest) n = postLoop rest (n + good.length) := by
  induction good with
  | nil =>
    intro rest n
    simp [postLoop]
  | cons f t ih =>
    intro rest n
    have hf := hg f (by simp)
    simp only [List.cons_append, postLoop]
    rw [if_pos hf.1, if_neg (not_lt.mpr hf.2)]
    show postLoop (t ++ rest) (n + 1) = postLoop rest (n + (f :: t).length)
    rw [ih (fun x hx => hg x (by simp [hx])) rest (n + 1)]
    congr 1
    simp only [List.length_cons]
    omega

/-- C7 counterexample: a request whose second file has an unsupported MIME
still gets its first file fully decoded and processed before the
validation error is surfaced — the failing request is partially
processed. -/
theorem claim_C7_counterexample :
    (POST 800 none 3 [⟨"a.png", "image/png", 10⟩, ⟨"b.txt", "text/plain", 10⟩]).error
      = some (.unsupportedType "b.txt")
    ∧ (POST 800 none 3
        [⟨"a.png", "image/png", 10⟩, ⟨"b.txt", "text/plain", 10⟩]).decodedCount
      = 1 := by
  constructor <;> decide

/-- C7 (amended): option validation errors, the empty-batch check and the
file-count cap are all surfaced before any decode work begins (decode count
0); an unsupported-MIME or size-cap error on a file is surfaced before that
file is decoded, but every file preceding the first invalid one has already
been decoded and processed by then. A fully valid batch decodes every
file. -/
theorem claim_C7_theorem (width : ℤ) (height : Option ℤ) (q : ℤ)
    (files : List ApiFile) :
    (validOptions width height q = false →
      POST width height q files = ⟨some .validation, 0⟩)
    ∧ (validOptions width height q = true → files = [] →
      POST width height q files = ⟨some .noFiles, 0⟩)
    ∧ (validOptions width height q = true → MAX_FILES < files.length →
      POST width height q files = ⟨some .tooManyFiles, 0⟩)
    ∧ (validOptions width height q = true → files ≠ [] →
      files.length ≤ MAX_FILES →
      (∀ f ∈ files, f.type ∈ ALLOWED_MIMES ∧ f.size ≤ MAX_SIZE_PER_FILE) →
      POST width height q files = ⟨none, files.length⟩)
    ∧ (∀ good bad rest, validOptions width height q = true →
      files = good ++ bad :: rest → files.length ≤ MAX_FILES →
      (∀ f ∈ good, f.type ∈ ALLOWED_MIMES ∧ f.size ≤ MAX_SIZE_PER_FILE) →
      (bad.type ∉ ALLOWED_MIMES ∨ MAX_SIZE_PER_FILE < bad.size) →
      (POST width height q files).decodedCount = good.length
      ∧ (POST width height q files).error.isSome = true) := by
  refine ⟨?_, ?_, ?_, ?_, ?_⟩
  · intro hv
    simp only [POST, hv, Bool.false_eq_true, if_false]
  · intro hv he
    simp only [POST, hv, if_true, he, List.length_nil, if_pos rfl]
  · intro hv hlen
    have hne : files.length ≠ 0 := by omega
    simp only [POST, hv, if_true, if_neg hne, if_pos hlen]
  · intro hv hne hlen hall
    have hne' : files.length ≠ 0 := by
      simp only [ne_eq, List.length_eq_zero]
      exact hne
    simp only [POST, hv, if_true, if_neg hne', if_neg (not_lt.mpr hlen)]
    have := postLoop_valid_prefix files hall [] 0
    rw [List.append_nil] at this
    rw [this]
    simp [postLoop]
  · intro good bad rest hv hsplit hlen hgood hbad
    subst hsplit
    have h1 : (good ++ bad :: rest).length ≠ 0 := by simp
    have hpost : POST width height q (good ++ bad :: rest)
        = postLoop (good ++ bad :: rest) 0 := by
      simp only [POST, hv, if_true]
      rw [if_neg h1, if_neg (not_lt.mpr hlen)]
    rw [hpost, postLoop_valid_prefix good hgood (bad :: rest) 0]
    rcases hbad with hb | hb
    · simp only [postLoop, if_neg hb]
      simp
    · by_cases hm : bad.type ∈ ALLOWED_MIMES
      · simp only [postLoop, if_pos hm, if_pos hb]
        simp
      · simp only [postLoop, if_neg hm]
        simp

/-- C7 witness: a fully valid single-file batch decodes exactly one file
with no error. -/
theorem claim_C7_witness :
    (validOptions 800 none 3 = true
     ∧ ([⟨"a.png", "image/png", 10⟩] : List ApiFile) ≠ []
     ∧ ([⟨"a.png", "image/png", 10⟩] : List ApiFile).length ≤ MAX_FILES
     ∧ (∀ f ∈ ([⟨"a.png", "image/png", 10⟩] : List ApiFile),
          f.type ∈ ALLOWED_MIMES ∧ f.size ≤ MAX_SIZE_PER_FILE))
    ∧ POST 800 none 3 [⟨"a.png", "image/png", 10⟩] =
        ⟨none, ([⟨"a.png", "image/png", 10⟩] : List ApiFile).length⟩ :=
  ⟨⟨by decide, by decide, by decide, by decide⟩,
   (claim_C7_theorem 800 none 3 [⟨"a.png", "image/png", 10⟩]).2.2.2.1
     (by decide) (by decide) (by decide) (by decide)⟩

/-! ### Claim C8 -/

/-- C8 counterexample: the server route does not name files after the
computed output dimensions. For "photo.png" at 1600x900, target 800x800,
mode inside, the computed output is 800x450, but the route emits
"photo_800x800.png" built from the requested dimensions — not the claimed
"photo_800x450.png". -/
theorem claim_C8_counterexample :
    (computeTargetSize 1600 900 800 (some 800) .inside).outH = 450
    ∧ serverOutName "photo.png" 800 (some 800) (outputExtension none "image/png")
        = "photo_800x800.png"
    ∧ serverOutName "photo.png" 800 (some 800) (outputExtension none "image/png")
        ≠ "photo_"
          ++ toString (computeTargetSize 1600 900 800 (some 800) .inside).outW
          ++ "x"
          ++ toString (computeTargetSize 1600 900 800 (some 800) .inside).outH
          ++ "." ++ extFromMime "image/png" := by
  have hc : computeTargetSize 1600 900 800 (some 800) .inside =
      ⟨800, 450, ⟨0, 0, 1600, 900, 0, 0, 800, 450⟩⟩ := by
    rw [computeTargetSize_inside]
    norm_num [jsRound, min_def]
  rw [hc]
  refine ⟨rfl, by decide, by decide⟩

/-- C8 (amended): the convention
`{baseNameWithoutExtension}_{outputWidth}x{outputHeight}.{extensionForMime}`
with the computed dimensions and the final (possibly fallback-substituted)
MIME holds for the client pipeline (`processFilesInBatches` items); the
server route instead uses the requested width and height (or "auto" when
height is absent) and the extension of the requested format. -/
theorem claim_C8_theorem (S E : String → Bool) (O : ClientOptions)
    (f : FileModel) (item : ProcessedItem)
    (h : processOne S E O f = some item) :
    (∃ r, renderAndEncode S E
        ⟨f.width, f.height, f.name, f.type, O.width, O.height, O.mode,
          O.format, O.qualityScale, O.allowEnlarge⟩ = some r
      ∧ item.filename = baseNameOf f.name ++ "_" ++ toString r.outW ++ "x"
          ++ toString r.outH ++ "." ++ extFromMime r.mime
      ∧ item.mime = r.mime ∧ item.outW = r.outW ∧ item.outH = r.outH)
    ∧ serverOutName "photo.png" 800 (some 800) (outputExtension none "image/png")
        = "photo_800x800.png"
    ∧ serverOutName "photo.png" 800 none (outputExtension none "image/png")
        = "photo_800xauto.png" := by
  refine ⟨?_, by decide, by decide⟩
  rcases hr : renderAndEncode S E
      ⟨f.width, f.height, f.name, f.type, O.width, O.height, O.mode,
        O.format, O.qualityScale, O.allowEnlarge⟩ with _ | r
  · exfalso
    simp only [processOne] at h
    rw [hr] at h
    exact absurd h (by simp)
  · refine ⟨r, rfl, ?_, ?_, ?_, ?_⟩ <;>
    · simp only [processOne] at h
      rw [hr] at h
      have := (Option.some.injEq _ _).mp h
      rw [← this]

/-- C8 witness: a concrete client item carries the computed-dimension
filename. -/
theorem claim_C8_witness :
    processOne (fun _ => true) (fun _ => true)
        ⟨800, some 800, .inside, .keep, 3, true⟩
        ⟨"photo.png", "image/png", 1600, 900⟩
      = some ⟨"photo_800x450.png", "image/png", 800, 450⟩
    ∧ ∃ r, renderAndEncode (fun _ => true) (fun _ => true)
        ⟨1600, 900, "photo.png", "image/png", 800, some 800, .inside, .keep,
          3, true⟩ = some r
      ∧ ("photo_800x450.png" : String) = baseNameOf "photo.png" ++ "_"
          ++ toString r.outW ++ "x" ++ toString r.outH ++ "." ++ extFromMime r.mime
      ∧ ("image/png" : String) = r.mime ∧ (800 : ℤ) = r.outW ∧ (450 : ℤ) = r.outH := by
  have hc : computeTargetSize 1600 900 800 (some 800) .inside =
      ⟨800, 450, ⟨0, 0, 1600, 900, 0, 0, 800, 450⟩⟩ := by
    rw [computeTargetSize_inside]
    norm_num [jsRound, min_def]
  have hp : processOne (fun _ => true) (fun _ => true)
      ⟨800, some 800, .inside, .keep, 3, true⟩
      ⟨"photo.png", "image/png", 1600, 900⟩
      = some ⟨"photo_800x450.png", "image/png", 800, 450⟩ := by
    simp only [processOne, renderAndEncode, canvasToBlobSafe, pickOutputMime,
      if_true, hc]
    exact congrArg some (by decide)
  have happ := claim_C8_theorem (fun _ => true) (fun _ => true)
    ⟨800, some 800, .inside, .keep, 3, true⟩
    ⟨"photo.png", "image/png", 1600, 900⟩
    ⟨"photo_800x450.png", "image/png", 800, 450⟩ hp
  exact ⟨hp, happ.1⟩

/-! ### Claim C9: the batching loop -/

/-- The slices visited by the batching loop concatenate back to the input
list. -/
theorem chunks_flatten {α : Type} (bs : ℕ) (hbs : bs ≠ 0) :
    ∀ l : List α, (chunks bs l).flatten = l := by
  intro l
  induction l using chunks.induct bs with
  | case1 l h =>
    rcases h with h | h
    · exact absurd h hbs
    · rw [chunks, if_pos (Or.inr h)]
      simp only [List.isEmpty_iff] at h
      simp [h]
  | case2 l h ih =>
    rw [chunks, if_neg h, List.flatten_cons, ih]
    exact List.take_append_drop bs l

/-- Every slice visited by the batching loop is nonempty and no longer
than the batch size. -/
theorem chunks_mem {α : Type} (bs : ℕ) :
    ∀ l : List α, ∀ c ∈ chunks bs l, c ≠ [] ∧ c.length ≤ bs := by
  intro l
  induction l using chunks.induct bs with
  | case1 l h =>
    intro c hc
    rw [chunks, if_pos h] at hc
    exact absurd hc (by simp)
  | case2 l h ih =>
    intro c hc
    rw [chunks, if_neg h] at hc
    push_neg at h
    have hl : l ≠ [] := by
      intro he
      rw [he] at h
      exact h.2 rfl
    rcases List.mem_cons.mp hc with hc | hc
    · subst hc
      constructor
      · simp only [ne_eq, List.take_eq_nil_iff]
        push_neg
        exact ⟨h.1, hl⟩
      · simp [List.length_take]
    · exact ih c hc

/-- Every slice except the last has exactly the batch size. -/
theorem chunks_full {α : Type} (bs : ℕ) :
    ∀ l : List α, ∀ pre c post, chunks bs l = pre ++ c :: post → post ≠ [] →
      c.length = bs := by
  intro l
  induction l using chunks.induct bs with
  | case1 l h =>
    intro pre c post heq
    rw [chunks, if_pos h] at heq
    exact absurd heq.symm (by simp)
  | case2 l h ih =>
    intro pre c post heq hpost
    rw [chunks, if_neg h] at heq
    cases pre with
    | nil =>
      simp only [List.nil_append, List.cons.injEq] at heq
      obtain ⟨h1, h2⟩ := heq
      subst h1
      have hd : l.drop bs ≠ [] := by
        intro hdrop
        rw [← h2, chunks, if_pos (Or.inr (by simp [hdrop]))] at hpost
        exact hpost rfl
      have hlen : bs < l.length := by
        by_contra hcon
        push_neg at hcon
        exact hd (List.drop_eq_nil_of_le hcon)
      simp [List.length_take]
      omega
    | cons p ps =>
      simp only [List.cons_append, List.cons.injEq] at heq
      exact ih ps c post heq.2 hpost

/-- Twelve files in batches of five make groups of sizes 5, 5, 2. -/
theorem chunks_five_twelve {α : Type} (l : List α) (h : l.length = 12) :
    (chunks 5 l).map List.length = [5, 5, 2] := by
  have hcond : ∀ m : List α, m ≠ [] → ¬((5 : ℕ) = 0 ∨ m.isEmpty = true) := by
    intro m hm
    push_neg
    refine ⟨by norm_num, ?_⟩
    simpa [List.isEmpty_iff] using hm
  have h1 : l ≠ [] := by
    intro he
    rw [he] at h
    simp at h
  have hd1 : (l.drop 5).length = 7 := by simp [h]
  have hd1ne : l.drop 5 ≠ [] := by
    intro he
    rw [he] at hd1
    simp at hd1
  have hd2 : ((l.drop 5).drop 5).length = 2 := by simp [h]
  have hd2ne : (l.drop 5).drop 5 ≠ [] := by
    intro he
    rw [he] at hd2
    simp at hd2
  have hd3 : ((l.drop 5).drop 5).drop 5 = [] := by
    have : (((l.drop 5).drop 5).drop 5).length = 0 := by simp [h]
    exact List.length_eq_zero.mp this
  rw [chunks, if_neg (hcond l h1)]
  rw [chunks, if_neg (hcond _ hd1ne)]
  rw [chunks, if_neg (hcond _ hd2ne)]
  rw [chunks, if_pos (Or.inr (by simp [h]))]
  simp only [List.map_cons, List.map_nil, List.length_take, h, hd1, hd2]
  decide

/-- When the PNG fallback encoder works, every file is processed to an
item. -/
theorem processOne_isSome (S E : String → Bool) (O : ClientOptions)
    (hpng : E "image/png" = true) (f : FileModel) :
    ∃ it, processOne S E O f = some it := by
  obtain ⟨mime, hm⟩ :=
    canvasToBlobSafe_isSome S E (pickOutputMime f.type O.format)
      (mapQuality01 O.qualityScale) hpng
  simp only [processOne, renderAndEncode, hm]
  exact ⟨_, rfl⟩

/-- A pointwise-successful `Option`-valued map succeeds on the whole list,
preserving length and order. -/
theorem mapM_eq_some_of_forall {α β : Type} (g : α → Option β) :
    ∀ l : List α, (∀ a ∈ l, ∃ b, g a = some b) →
      ∃ bl, l.mapM g = some bl ∧ bl.length = l.length
        ∧ ∀ (i : ℕ) (h1 : i < l.length) (h2 : i < bl.length),
            g (l.get ⟨i, h1⟩) = some (bl.get ⟨i, h2⟩) := by
  intro l
  induction l with
  | nil =>
    intro _
    refine ⟨[], rfl, rfl, ?_⟩
    intro i h1
    simp at h1
  | cons a t ih =>
    intro hg
    obtain ⟨b, hb⟩ := hg a (by simp)
    obtain ⟨bl, hbl, hlen, hget⟩ := ih (fun x hx => hg x (by simp [hx]))
    refine ⟨b :: bl, ?_, by simp [hlen], ?_⟩
    · rw [List.mapM_cons, hb, hbl]
      rfl
    · intro i h1 h2
      cases i with
      | zero => simpa using hb
      | succ j =>
        simpa using hget j (by simpa using h1) (by simpa using h2)

/-- The first component of the batch walk is the `Option`-joined map over
the flattened groups. -/
theorem goBatches_fst (S E : String → Bool) (O : ClientOptions) (total : ℕ) :
    ∀ (bss : List (List FileModel)) (done : ℕ),
      (goBatches S E O total done bss).1
        = bss.flatten.mapM (processOne S E O) := by
  intro bss
  induction bss with
  | nil =>
    intro done
    rfl
  | cons b rest ih =>
    intro done
    simp only [goBatches, List.flatten_cons, List.mapM_append]
    rcases hb : b.mapM (processOne S E O) with _ | items
    · simp [hb]
    · simp only [hb]
      rw [show List.mapM (processOne S E O) rest.flatten
          = (goBatches S E O total (done + b.length) rest).1
        from (ih (done + b.length)).symm]
      rcases hrec : (goBatches S E O total (done + b.length) rest).1
        with _ | more <;> simp [hrec]

/-- The completion events of one group report done counts
done+1, ..., done+n in order. -/
theorem comps_done_map (total done n : ℕ) :
    (((List.range n).map fun k => ProgressEvent.mk total (done + k + 1) none).map
      (fun e => e.done)) = List.range' (done + 1) n := by
  rw [List.map_map, List.range'_eq_map_range]
  apply List.map_congr_left
  intro k _
  simp only [Function.comp_apply]
  omega

/-- Filtering the batch walk's progress trace to the events with no
current file name (the completion reports) yields the strictly increasing
done counts done+1, ..., done+total processed. -/
theorem goBatches_filter (S E : String → Bool) (O : ClientOptions)
    (total : ℕ) (hpng : E "image/png" = true) :
    ∀ (bss : List (List FileModel)) (done : ℕ),
      (((goBatches S E O total done bss).2.filter
          (fun e => e.currentFileName.isNone)).map (fun e => e.done))
        = List.range' (done + 1) bss.flatten.length := by
  intro bss
  induction bss with
  | nil =>
    intro done
    rfl
  | cons b rest ih =>
    intro done
    obtain ⟨items, hitems, -, -⟩ :=
      mapM_eq_some_of_forall (processOne S E O) b
        (fun a _ => processOne_isSome S E O hpng a)
    simp only [goBatches, hitems]
    rw [List.filter_append, List.filter_append]
    have hbefore : (b.map fun f => ProgressEvent.mk total done (some f.name)).filter
        (fun e => e.currentFileName.isNone) = [] := by
      rw [List.filter_eq_nil_iff]
      intro e he
      obtain ⟨f, -, rfl⟩ := List.mem_map.mp he
      simp
    have hcomps : ((List.range b.length).map
          fun k => ProgressEvent.mk total (done + k + 1) none).filter
        (fun e => e.currentFileName.isNone)
        = (List.range b.length).map
            fun k => ProgressEvent.mk total (done + k + 1) none := by
      rw [List.filter_eq_self]
      intro e he
      obtain ⟨k, -, rfl⟩ := List.mem_map.mp he
      simp
    rw [hbefore, hcomps, List.nil_append, List.map_append, ih (done + b.length)]
    rw [comps_done_map, List.flatten_cons, List.length_append]
    rw [show done + b.length + 1 = (done + 1) + b.length from by omega]
    rw [List.range'_append_1]
    congr 1
    omega

/-- Along the batch walk, every reported done count is at least the
starting done count, and the reported done counts never decrease. -/
theorem goBatches_sorted (S E : String → Bool) (O : ClientOptions)
    (total : ℕ) (hpng : E "image/png" = true) :
    ∀ (bss : List (List FileModel)) (done : ℕ),
      (∀ e ∈ (goBatches S E O total done bss).2, done ≤ e.done)
      ∧ ((goBatches S E O total done bss).2.map (fun e => e.done)).Sorted
          (· ≤ ·) := by
  intro bss
  induction bss with
  | nil =>
    intro done
    refine ⟨?_, List.sorted_nil⟩
    intro e he
    simp only [goBatches] at he
    exact absurd he (by simp)
  | cons b rest ih =>
    intro done
    obtain ⟨items, hitems, -, -⟩ :=
      mapM_eq_some_of_forall (processOne S E O) b
        (fun a _ => processOne_isSome S E O hpng a)
    obtain ⟨ihmem, ihsort⟩ := ih (done + b.length)
    simp only [goBatches, hitems]
    have hb1 : ((b.map fun f => ProgressEvent.mk total done (some f.name)).map
        (fun e => e.done)) = List.replicate b.length done := by
      rw [List.map_map]
      exact List.map_const' _ _
    constructor
    · intro e he
      rcases List.mem_append.mp he with he | he
      · rcases List.mem_append.mp he with he | he
        · obtain ⟨f, -, rfl⟩ := List.mem_map.mp he
          exact le_refl done
        · obtain ⟨k, -, rfl⟩ := List.mem_map.mp he
          simp only []
          omega
      · exact le_trans (by omega) (ihmem e he)
    · rw [List.map_append, List.map_append, hb1, comps_done_map]
      apply List.pairwise_append.mpr
      refine ⟨?_, ihsort, ?_⟩
      · apply List.pairwise_append.mpr
        refine ⟨?_, ?_, ?_⟩
        · simp only [List.pairwise_replicate]
          exact Or.inr (le_refl done)
        · exact List.pairwise_le_range' (done + 1) b.length
        · intro x hx y hy
          have hxv : x = done := List.eq_of_mem_replicate hx
          have hyv : done + 1 ≤ y := (List.mem_range'_1.mp hy).1
          omega
      · intro x hx y hy
        obtain ⟨e, he, rfl⟩ := List.mem_map.mp hy
        have hyv := ihmem e he
        rcases List.mem_append.mp hx with hx | hx
        · have := List.eq_of_mem_replicate hx
          omega
        · have := (List.mem_range'_1.mp hx).2
          omega

/-- Every event of the batch walk reports the fixed total. -/
theorem goBatches_total (S E : String → Bool) (O : ClientOptions)
    (total : ℕ) (hpng : E "image/png" = true) :
    ∀ (bss : List (List FileModel)) (done : ℕ),
      ∀ e ∈ (goBatches S E O total done bss).2, e.total = total := by
  intro bss
  induction bss with
  | nil =>
    intro done e he
    simp only [goBatches] at he
    exact absurd he (by simp)
  | cons b rest ih =>
    intro done e he
    obtain ⟨items, hitems, -, -⟩ :=
      mapM_eq_some_of_forall (processOne S E O) b
        (fun a _ => processOne_isSome S E O hpng a)
    simp only [goBatches, hitems] at he
    rcases List.mem_append.mp he with he | he
    · rcases List.mem_append.mp he with he | he
      · obtain ⟨f, -, rfl⟩ := List.mem_map.mp he
        rfl
      · obtain ⟨k, -, rfl⟩ := List.mem_map.mp he
        rfl
    · exact ih (done + b.length) e he

/-- C9: `processFilesInBatches` partitions the input into consecutive
groups of `batchSize` (the last possibly smaller; 12 files at batch size
5 give groups 5, 5, 2), produces exactly one result per input file in
input order, and its progress trace reports the fixed total with a done
count that starts at 0, never decreases, and on completion events counts
1, 2, ..., total without skipping. -/
theorem claim_C9_theorem (S E : String → Bool) (O : ClientOptions)
    (files : List FileModel) (batchSize : ℕ)
    (hbs : 1 ≤ batchSize) (hpng : E "image/png" = true) :
    (chunks batchSize files).flatten = files
    ∧ (∀ c ∈ chunks batchSize files, c ≠ [] ∧ c.length ≤ batchSize)
    ∧ (∀ pre c post, chunks batchSize files = pre ++ c :: post → post ≠ [] →
        c.length = batchSize)
    ∧ (batchSize = 5 → files.length = 12 →
        (chunks batchSize files).map List.length = [5, 5, 2])
    ∧ (processFilesInBatches S E files O batchSize).1
        = files.mapM (processOne S E O)
    ∧ (∃ items, files.mapM (processOne S E O) = some items
        ∧ items.length = files.length
        ∧ ∀ (i : ℕ) (h1 : i < files.length) (h2 : i < items.length),
            processOne S E O (files.get ⟨i, h1⟩) = some (items.get ⟨i, h2⟩))
    ∧ (((processFilesInBatches S E files O batchSize).2.filter
          (fun e => e.currentFileName.isNone)).map (fun e => e.done))
        = List.range (files.length + 1)
    ∧ ((processFilesInBatches S E files O batchSize).2.map
        (fun e => e.done)).Sorted (· ≤ ·)
    ∧ (∀ e ∈ (processFilesInBatches S E files O batchSize).2,
        e.total = files.length) := by
  have hbs' : batchSize ≠ 0 := by omega
  have hflat := chunks_flatten batchSize hbs' files
  refine ⟨hflat, chunks_mem batchSize files, chunks_full batchSize files,
    ?_, ?_, ?_, ?_, ?_, ?_⟩
  · intro h5 h12
    subst h5
    exact chunks_five_twelve files h12
  · simp only [processFilesInBatches]
    rw [goBatches_fst S E O files.length (chunks batchSize files) 0, hflat]
  · exact mapM_eq_some_of_forall (processOne S E O) files
      (fun a _ => processOne_isSome S E O hpng a)
  · simp only [processFilesInBatches]
    rw [List.filter_cons_of_pos (by rfl), List.map_cons]
    rw [goBatches_filter S E O files.length hpng (chunks batchSize files) 0,
      hflat]
    rw [List.range_eq_range', List.range'_succ]
  · simp only [processFilesInBatches]
    rw [List.map_cons]
    apply List.pairwise_cons.mpr
    refine ⟨fun y _ => Nat.zero_le y, ?_⟩
    exact (goBatches_sorted S E O files.length hpng
      (chunks batchSize files) 0).2
  · simp only [processFilesInBatches]
    intro e he
    rcases List.mem_cons.mp he with he | he
    · rw [he]
    · exact goBatches_total S E O files.length hpng
        (chunks batchSize files) 0 e he

/-- A concrete batch of twelve decodable files for the C9 scenario. -/
def sampleBatch : List FileModel :=
  (List.range 12).map fun i => ⟨"f" ++ toString i ++ ".png", "image/png", 10, 10⟩

/-- C9 witness: the batch walk on twelve files at batch size five. -/
theorem claim_C9_witness :
    ((1 : ℕ) ≤ 5 ∧ (fun _ : String => true) "image/png" = true)
    ∧ (chunks 5 sampleBatch).flatten = sampleBatch :=
  ⟨⟨by decide, rfl⟩,
   (claim_C9_theorem (fun _ => true) (fun _ => true)
      ⟨100, none, .inside, .keep, 3, false⟩ sampleBatch 5 (by decide) rfl).1⟩

end ImageResize
